/-
Verification of the broadlinkzard UDP client (broadlinkzard.go).

Bytes are modelled as `Nat` values below 256, buffers as `List Nat`.
Go's fixed-width integer arithmetic is made explicit with `% 256`
(uint8) and `% 65536` (uint16).  The AES-128 block cipher from Go's
`crypto/aes` is external to the repository, so the session layer is
parametrised by an abstract block function `E` (encryption of one
16-byte block under the session key) and its inverse `D`; the CBC mode
chaining, padding and length checks are translated from the source.
Go panics (nil dereference, out-of-range slice, non-block-aligned
`CryptBlocks` input) are modelled as `none`.
-/
import Mathlib

namespace Broadlinkzard

/-- Little-endian 16-bit read, `binary.LittleEndian.Uint16(buf[pos:])`. -/
def getU16LE (buf : List Nat) (pos : Nat) : Nat :=
  buf.getD pos 0 + 256 * buf.getD (pos + 1) 0

/-- Little-endian 16-bit write, `binary.LittleEndian.PutUint16(buf[pos:], v)`. -/
def putU16LE (buf : List Nat) (pos v : Nat) : List Nat :=
  (buf.set pos (v % 256)).set (pos + 1) (v / 256 % 256)

/-- Little-endian 32-bit read, `binary.LittleEndian.Uint32(buf[pos:])`. -/
def getU32LE (buf : List Nat) (pos : Nat) : Nat :=
  buf.getD pos 0 + 256 * buf.getD (pos + 1) 0 +
    65536 * buf.getD (pos + 2) 0 + 16777216 * buf.getD (pos + 3) 0

/-- Little-endian 32-bit write, `binary.LittleEndian.PutUint32(buf[pos:], v)`. -/
def putU32LE (buf : List Nat) (pos v : Nat) : List Nat :=
  ((((buf.set pos (v % 256)).set (pos + 1) (v / 256 % 256)).set
      (pos + 2) (v / 65536 % 256)).set (pos + 3) (v / 16777216 % 256))

/-- Go's `copy(dst[pos:], src)`: copies `min |src| (|dst| - pos)` bytes. -/
def copyAt (dst : List Nat) (pos : Nat) (src : List Nat) : List Nat :=
  let k := min src.length (dst.length - pos)
  dst.take pos ++ src.take k ++ dst.drop (pos + k)

/-- `calcChecksum`: 16-bit sum of every byte, seeded with 0xbeaf,
wrapping at 16 bits (Go `uint16` accumulation). -/
def calcChecksum (payload : List Nat) : Nat :=
  payload.foldl (fun checksum val => (checksum + val) % 65536) 0xbeaf

/-- `checkChecksum(payload, checksumPos)`: reads the stored little-endian
checksum, zeroes the field, recomputes, restores the field, and returns
whether the recomputed value equals the stored one together with the
buffer as it is left on return. -/
def checkChecksum (payload : List Nat) (checksumPos : Nat) : Bool × List Nat :=
  let origChecksum := getU16LE payload checksumPos
  let zeroed := putU16LE payload checksumPos 0
  let newChecksum := calcChecksum zeroed
  let restored := putU16LE zeroed checksumPos origChecksum
  (newChecksum == origChecksum, restored)

/-- A buffer whose entries are genuine bytes. -/
def isByteBuf (buf : List Nat) : Prop := ∀ b ∈ buf, b < 256

instance (buf : List Nat) : Decidable (isByteBuf buf) := by
  unfold isByteBuf; infer_instance

end Broadlinkzard

namespace Broadlinkzard

theorem getD_set_self (l : List Nat) (i a d : Nat) (h : i < l.length) :
    (l.set i a).getD i d = a := by
  simp [List.getD, List.getElem?_set_self, h]

theorem getD_set_ne (l : List Nat) (i j a d : Nat) (h : i ≠ j) :
    (l.set i a).getD j d = l.getD j d := by
  simp [List.getD, List.getElem?_set_ne h]

theorem set_set_same (l : List Nat) (i a b : Nat) :
    (l.set i a).set i b = l.set i b := by
  simp [List.set_set]

theorem set_getD_self (l : List Nat) (i : Nat) (h : i < l.length) :
    l.set i (l.getD i 0) = l := by
  induction l generalizing i with
  | nil => simp at h
  | cons a t ih =>
    cases i with
    | zero => rfl
    | succ j =>
      show a :: t.set j (t.getD j 0) = a :: t
      rw [ih j (by simpa using h)]

/-- Restoring the two checksum bytes after zeroing them recovers the
original buffer, provided the stored entries are bytes. -/
theorem putU16LE_getU16LE_restore (buf : List Nat) (pos : Nat)
    (hb : isByteBuf buf) (hlen : pos + 1 < buf.length) :
    putU16LE (putU16LE buf pos 0) pos (getU16LE buf pos) = buf := by
  have hpos : pos < buf.length := Nat.lt_of_succ_lt hlen
  have hb0 : buf.getD pos 0 < 256 := by
    have := hb (buf.getD pos 0) (by
      have : buf.getD pos 0 = buf.get ⟨pos, hpos⟩ := by
        simp [List.getD, List.getElem?_eq_getElem hpos]
      rw [this]; exact List.get_mem ..)
    exact this
  have hb1 : buf.getD (pos + 1) 0 < 256 := by
    have := hb (buf.getD (pos + 1) 0) (by
      have : buf.getD (pos + 1) 0 = buf.get ⟨pos + 1, hlen⟩ := by
        simp [List.getD, List.getElem?_eq_getElem hlen]
      rw [this]; exact List.get_mem ..)
    exact this
  unfold putU16LE getU16LE
  have hne : pos ≠ pos + 1 := by omega
  rw [List.set_comm _ _ _ hne]
  rw [set_set_same]
  rw [List.set_comm _ _ _ (by omega : pos + 1 ≠ pos)]
  rw [set_set_same]
  have hv : (buf.getD pos 0 + 256 * buf.getD (pos + 1) 0) % 256 = buf.getD pos 0 := by
    omega
  have hv2 : (buf.getD pos 0 + 256 * buf.getD (pos + 1) 0) / 256 % 256
      = buf.getD (pos + 1) 0 := by
    omega
  rw [hv, hv2, set_getD_self _ _ hpos, set_getD_self _ _ hlen]

/-- Zeroing the 16-bit checksum field splits the buffer around two zero bytes. -/
theorem putU16LE_zero_split (B : List Nat) (pos : Nat) (h : pos + 1 < B.length) :
    putU16LE B pos 0 = B.take pos ++ [0, 0] ++ B.drop (pos + 2) := by
  induction B generalizing pos with
  | nil => simp at h
  | cons a t ih =>
    cases pos with
    | zero =>
      cases t with
      | nil => simp at h
      | cons b t' => rfl
    | succ p =>
      have h' : p + 1 < t.length := by simpa using h
      calc putU16LE (a :: t) (p + 1) 0 = a :: putU16LE t p 0 := rfl
        _ = a :: (t.take p ++ [0, 0] ++ t.drop (p + 2)) := by rw [ih p h']
        _ = (a :: t).take (p + 1) ++ [0, 0] ++ (a :: t).drop (p + 1 + 2) := by simp

/-- C1: for every byte buffer `B` of length at least 0x22, `checkChecksum B 0x20`
returns true iff the 16-bit checksum recomputed over `B` with the two checksum
bytes zeroed (sum seeded with 0xbeaf, wrapping at 16 bits) equals the
little-endian value stored at offset 0x20, and the buffer handed back on
return is byte-for-byte equal to `B`, regardless of the outcome. -/
theorem checkChecksum_valid_iff_and_preserves (B : List Nat)
    (hlen : 0x22 ≤ B.length) (hb : isByteBuf B) :
    ((checkChecksum B 0x20).1 = true ↔
      calcChecksum (B.take 0x20 ++ [0, 0] ++ B.drop 0x22) = getU16LE B 0x20) ∧
    (checkChecksum B 0x20).2 = B := by
  constructor
  · show (calcChecksum (putU16LE B 0x20 0) == getU16LE B 0x20) = true ↔ _
    rw [putU16LE_zero_split B 0x20 (by omega), beq_iff_eq]
  · exact putU16LE_getU16LE_restore B 0x20 hb (by omega)

/-- Witness for C1 at a concrete frame of length 0x22 whose stored checksum
0xbeaf matches the all-zero body. -/
theorem checkChecksum_valid_iff_and_preserves_witness :
    ((checkChecksum (List.replicate 0x20 0 ++ [0xaf, 0xbe]) 0x20).1 = true ↔
      calcChecksum ((List.replicate 0x20 0 ++ [0xaf, 0xbe]).take 0x20 ++ [0, 0] ++
        (List.replicate 0x20 0 ++ [0xaf, 0xbe]).drop 0x22) =
        getU16LE (List.replicate 0x20 0 ++ [0xaf, 0xbe]) 0x20) ∧
    (checkChecksum (List.replicate 0x20 0 ++ [0xaf, 0xbe]) 0x20).2 =
      List.replicate 0x20 0 ++ [0xaf, 0xbe] :=
  checkChecksum_valid_iff_and_preserves (List.replicate 0x20 0 ++ [0xaf, 0xbe])
    (by decide) (by decide)

end Broadlinkzard

namespace Broadlinkzard

/-- `padding(packet, blockSize)`: appends `blockSize - len % blockSize` zero
bytes — a full extra block when the input is already block-aligned. -/
def padding (packet : List Nat) (blockSize : Nat) : List Nat :=
  packet ++ List.replicate (blockSize - packet.length % blockSize) 0

/-- `unPadding(src)`: interprets the last byte as a pad length and strips
that many bytes.  Defined in the source but invoked by no operation. -/
def unPadding (src : List Nat) : List Nat :=
  src.take (src.length - src.getD (src.length - 1) 0)

/-- Bytewise XOR of two blocks, `cipher/cbc`'s `xorBytes`. -/
def blockXor (a b : List Nat) : List Nat := List.zipWith Nat.xor a b

/-- Fuel-based chunking loop; the fuel only bounds the number of
iterations and never runs out when it starts at the buffer length. -/
def toBlocksF : Nat → List Nat → List (List Nat)
  | _, [] => []
  | 0, _ :: _ => []
  | fuel + 1, x :: xs => (x :: xs).take 16 :: toBlocksF fuel ((x :: xs).drop 16)

/-- Split a buffer into successive 16-byte chunks (`CryptBlocks` iteration). -/
def toBlocks (l : List Nat) : List (List Nat) :=
  toBlocksF l.length l

theorem toBlocksF_fuel_irrel (f₁ : Nat) :
    ∀ (f₂ : Nat) (l : List Nat), l.length ≤ f₁ → l.length ≤ f₂ →
      toBlocksF f₁ l = toBlocksF f₂ l := by
  induction f₁ with
  | zero =>
    intro f₂ l h₁ _
    cases l with
    | nil => cases f₂ <;> rfl
    | cons x xs => simp at h₁
  | succ f ih =>
    intro f₂ l h₁ h₂
    cases l with
    | nil => cases f₂ <;> rfl
    | cons x xs =>
      cases f₂ with
      | zero => simp at h₂
      | succ g =>
        show (x :: xs).take 16 :: toBlocksF f ((x :: xs).drop 16) =
          (x :: xs).take 16 :: toBlocksF g ((x :: xs).drop 16)
        congr 1
        exact ih g ((x :: xs).drop 16)
          (by simp only [List.length_drop]; simp at h₁ ⊢; omega)
          (by simp only [List.length_drop]; simp at h₂ ⊢; omega)

/-- The recurrence `toBlocks` satisfies. -/
theorem toBlocks_unfold (l : List Nat) :
    toBlocks l = if l = [] then [] else l.take 16 :: toBlocks (l.drop 16) := by
  cases l with
  | nil => rfl
  | cons x xs =>
    rw [if_neg (by simp)]
    show (x :: xs).take 16 :: toBlocksF xs.length ((x :: xs).drop 16) =
      (x :: xs).take 16 :: toBlocks ((x :: xs).drop 16)
    congr 1
    exact toBlocksF_fuel_irrel xs.length ((x :: xs).drop 16).length
      ((x :: xs).drop 16)
      (by simp only [List.length_drop, List.length_cons]; omega) (Nat.le_refl _)

/-- CBC encryption chaining: each ciphertext block is `E` applied to the
plaintext block XORed with the previous ciphertext block (initially the IV). -/
def cbcEncBlocks (E : List Nat → List Nat) (prev : List Nat) :
    List (List Nat) → List (List Nat)
  | [] => []
  | b :: bs =>
    let c := E (blockXor b prev)
    c :: cbcEncBlocks E c bs

/-- CBC decryption chaining: each plaintext block is `D` of the ciphertext
block, XORed with the previous ciphertext block (initially the IV). -/
def cbcDecBlocks (D : List Nat → List Nat) (prev : List Nat) :
    List (List Nat) → List (List Nat)
  | [] => []
  | c :: cs => blockXor (D c) prev :: cbcDecBlocks D c cs

/-- `encrypt(key, iv, text)`: pad to a block multiple, then CBC-encrypt.
The AES block permutation under the key is the parameter `E`. -/
def encrypt (E : List Nat → List Nat) (iv text : List Nat) : List Nat :=
  (cbcEncBlocks E iv (toBlocks (padding text 16))).flatten

/-- `decrypt(key, iv, encText)`: errors when the ciphertext is shorter than
one block; CBC-decrypts otherwise.  `CryptBlocks` panics on input that is
not a whole number of blocks — modelled as `none`. -/
def decrypt (D : List Nat → List Nat) (iv encText : List Nat) : Option (List Nat) :=
  if encText.length < 16 then none
  else if encText.length % 16 ≠ 0 then none
  else some (cbcDecBlocks D iv (toBlocks encText)).flatten

theorem flatten_toBlocks (l : List Nat) : (toBlocks l).flatten = l := by
  rw [toBlocks_unfold]
  by_cases h : l = []
  · simp [h]
  · rw [if_neg h]
    rw [List.flatten_cons, flatten_toBlocks (l.drop 16)]
    exact List.take_append_drop 16 l
termination_by l.length
decreasing_by
  simp only [List.length_drop]
  exact Nat.sub_lt (List.length_pos.mpr h) (by omega)

theorem toBlocks_length_16 (l : List Nat) (hdvd : 16 ∣ l.length) :
    ∀ b ∈ toBlocks l, b.length = 16 := by
  rw [toBlocks_unfold]
  by_cases h : l = []
  · simp [h]
  · rw [if_neg h]
    intro b hb
    have hpos : 0 < l.length := List.length_pos.mpr h
    have h16 : 16 ≤ l.length := Nat.le_of_dvd hpos hdvd
    rcases List.mem_cons.mp hb with rfl | htail
    · simp [List.length_take]; omega
    · exact toBlocks_length_16 (l.drop 16)
        (by simp only [List.length_drop]; omega) b htail
termination_by l.length
decreasing_by
  simp only [List.length_drop]
  exact Nat.sub_lt (List.length_pos.mpr h) (by omega)

theorem toBlocks_flatten (cs : List (List Nat)) (h : ∀ c ∈ cs, c.length = 16) :
    toBlocks cs.flatten = cs := by
  induction cs with
  | nil => rw [toBlocks_unfold]; simp
  | cons c cs ih =>
    have hc : c.length = 16 := h c (by simp)
    rw [toBlocks_unfold]
    have hne : (c :: cs).flatten ≠ [] := by
      simp only [List.flatten_cons]
      intro hcontra
      have := congrArg List.length hcontra
      simp [hc] at this
    rw [if_neg hne]
    simp only [List.flatten_cons]
    have htake : (c ++ cs.flatten).take 16 = c := by
      rw [← hc]; exact List.take_left ..
    have hdrop : (c ++ cs.flatten).drop 16 = cs.flatten := by
      rw [← hc]; exact List.drop_left ..
    rw [htake, hdrop, ih (fun x hx => h x (by simp [hx]))]

theorem blockXor_cancel (a b : List Nat) (h : a.length = b.length) :
    blockXor (blockXor a b) b = a := by
  induction a generalizing b with
  | nil => cases b <;> simp [blockXor]
  | cons x xs ih =>
    cases b with
    | nil => simp at h
    | cons y ys =>
      simp only [blockXor, List.zipWith_cons_cons]
      rw [show Nat.xor (Nat.xor x y) y = x by
        have h1 : Nat.xor (Nat.xor x y) y = x ^^^ y ^^^ y := rfl
        rw [h1, Nat.xor_assoc, Nat.xor_self, Nat.xor_zero]]
      have := ih ys (by simpa using h)
      simp only [blockXor] at this
      rw [this]

theorem blockXor_length (a b : List Nat) :
    (blockXor a b).length = min a.length b.length := by
  simp [blockXor]

theorem cbcDecBlocks_cbcEncBlocks (E D : List Nat → List Nat)
    (hED : ∀ x, x.length = 16 → D (E x) = x)
    (hE : ∀ x, x.length = 16 → (E x).length = 16)
    (prev : List Nat) (hprev : prev.length = 16)
    (bs : List (List Nat)) (hbs : ∀ b ∈ bs, b.length = 16) :
    cbcDecBlocks D prev (cbcEncBlocks E prev bs) = bs := by
  induction bs generalizing prev with
  | nil => rfl
  | cons b bs ih =>
    have hb : b.length = 16 := hbs b (by simp)
    have hxlen : (blockXor b prev).length = 16 := by
      rw [blockXor_length, hb, hprev]; simp
    show blockXor (D (E (blockXor b prev))) prev ::
      cbcDecBlocks D (E (blockXor b prev)) (cbcEncBlocks E (E (blockXor b prev)) bs)
        = b :: bs
    rw [hED _ hxlen, blockXor_cancel b prev (by rw [hb, hprev])]
    rw [ih (E (blockXor b prev)) (hE _ hxlen)
      (fun x hx => hbs x (List.mem_cons_of_mem b hx))]

theorem cbcEncBlocks_length_16 (E : List Nat → List Nat)
    (hE : ∀ x, x.length = 16 → (E x).length = 16)
    (prev : List Nat) (hprev : prev.length = 16)
    (bs : List (List Nat)) (hbs : ∀ b ∈ bs, b.length = 16) :
    ∀ c ∈ cbcEncBlocks E prev bs, c.length = 16 := by
  induction bs generalizing prev with
  | nil => simp [cbcEncBlocks]
  | cons b bs ih =>
    intro c hc
    have hb : b.length = 16 := hbs b (by simp)
    have hxlen : (blockXor b prev).length = 16 := by
      rw [blockXor_length, hb, hprev]; simp
    rcases List.mem_cons.mp hc with rfl | htail
    · exact hE _ hxlen
    · exact ih (E (blockXor b prev)) (hE _ hxlen)
        (fun x hx => hbs x (List.mem_cons_of_mem b hx)) c htail

theorem flatten_length_16 (cs : List (List Nat)) (h : ∀ c ∈ cs, c.length = 16) :
    cs.flatten.length = 16 * cs.length := by
  induction cs with
  | nil => simp
  | cons c cs ih =>
    simp only [List.flatten_cons, List.length_append, List.length_cons]
    rw [h c (by simp), ih (fun x hx => h x (by simp [hx]))]
    ring

theorem cbcEncBlocks_count (E : List Nat → List Nat) (prev : List Nat)
    (bs : List (List Nat)) : (cbcEncBlocks E prev bs).length = bs.length := by
  induction bs generalizing prev with
  | nil => rfl
  | cons b bs ih => simp [cbcEncBlocks, ih]

theorem padding_length_dvd (P : List Nat) : 16 ∣ (padding P 16).length := by
  simp only [padding, List.length_append, List.length_replicate]
  omega

theorem padding_length_pos (P : List Nat) : 16 ≤ (padding P 16).length := by
  simp only [padding, List.length_append, List.length_replicate]
  omega

theorem encrypt_length (E : List Nat → List Nat)
    (hE : ∀ x, x.length = 16 → (E x).length = 16)
    (iv : List Nat) (hiv : iv.length = 16) (P : List Nat) :
    (encrypt E iv P).length = (padding P 16).length := by
  unfold encrypt
  have hblocks := toBlocks_length_16 (padding P 16) (padding_length_dvd P)
  rw [flatten_length_16 _ (cbcEncBlocks_length_16 E hE iv hiv _ hblocks)]
  rw [cbcEncBlocks_count]
  have := flatten_length_16 (toBlocks (padding P 16)) hblocks
  rw [flatten_toBlocks] at this
  omega

/-- Shared helper: the CBC round trip over the abstract block cipher. -/
theorem decrypt_encrypt_eq (E D : List Nat → List Nat) (iv P : List Nat)
    (hED : ∀ x, x.length = 16 → D (E x) = x)
    (hE : ∀ x, x.length = 16 → (E x).length = 16)
    (hiv : iv.length = 16) :
    decrypt D iv (encrypt E iv P) = some (padding P 16) := by
  have hlen := encrypt_length E hE iv hiv P
  have hdvd := padding_length_dvd P
  have hpos := padding_length_pos P
  have hblocks := toBlocks_length_16 (padding P 16) hdvd
  unfold decrypt
  rw [if_neg (by omega), if_neg (by
    simp only [ne_eq, Decidable.not_not]
    omega)]
  unfold encrypt
  rw [toBlocks_flatten _ (cbcEncBlocks_length_16 E hE iv hiv _ hblocks)]
  rw [cbcDecBlocks_cbcEncBlocks E D hED hE iv hiv _ hblocks]
  rw [flatten_toBlocks]

/-- C2: for every plaintext `P`, every 16-byte IV and every key — represented
by its AES block permutation `E` with inverse `D` — decrypting the encryption
of `P` succeeds and yields exactly `padding P 16`, the plaintext zero-padded
to the next multiple of the block size. -/
theorem decrypt_encrypt_roundtrip (E D : List Nat → List Nat) (iv P : List Nat)
    (hED : ∀ x, x.length = 16 → D (E x) = x)
    (hE : ∀ x, x.length = 16 → (E x).length = 16)
    (hiv : iv.length = 16) :
    decrypt D iv (encrypt E iv P) = some (padding P 16) :=
  decrypt_encrypt_eq E D iv P hED hE hiv

/-- Witness for C2: identity block cipher, zero IV, plaintext `[1, 2, 3]`. -/
theorem decrypt_encrypt_roundtrip_witness :
    decrypt id (List.replicate 16 0) (encrypt id (List.replicate 16 0) [1, 2, 3])
      = some (padding [1, 2, 3] 16) :=
  decrypt_encrypt_roundtrip id id (List.replicate 16 0) [1, 2, 3]
    (fun x _ => rfl) (fun x hx => hx) (by decide)

end Broadlinkzard

namespace Broadlinkzard

theorem calcChecksum_lt (payload : List Nat) : calcChecksum payload < 65536 := by
  unfold calcChecksum
  suffices h : ∀ (l : List Nat) (c : Nat), c < 65536 →
      l.foldl (fun checksum val => (checksum + val) % 65536) c < 65536 by
    exact h payload 0xbeaf (by omega)
  intro l
  induction l with
  | nil => intro c hc; simpa using hc
  | cons v t ih =>
    intro c _
    exact ih ((c + v) % 65536) (Nat.mod_lt _ (by omega))

/-- Trailing zero bytes do not change the checksum. -/
theorem calcChecksum_append_zeros (l : List Nat) (k : Nat) :
    calcChecksum (l ++ List.replicate k 0) = calcChecksum l := by
  unfold calcChecksum
  rw [List.foldl_append]
  suffices h : ∀ (n : Nat) (c : Nat), c < 65536 →
      (List.replicate n (0 : Nat)).foldl
        (fun checksum val => (checksum + val) % 65536) c = c by
    exact h k _ (calcChecksum_lt l)
  intro n
  induction n with
  | zero => intro c _; rfl
  | succ m ih =>
    intro c hc
    show (List.replicate m (0 : Nat)).foldl _ ((c + 0) % 65536) = c
    rw [Nat.add_zero, Nat.mod_eq_of_lt hc]
    exact ih c hc

theorem getD_append_left (l₁ l₂ : List Nat) (i d : Nat) (h : i < l₁.length) :
    (l₁ ++ l₂).getD i d = l₁.getD i d := by
  simp [List.getD, List.getElem?_append_left h]

theorem getU16LE_append_left (l₁ l₂ : List Nat) (pos : Nat)
    (h : pos + 1 < l₁.length) :
    getU16LE (l₁ ++ l₂) pos = getU16LE l₁ pos := by
  unfold getU16LE
  rw [getD_append_left _ _ _ _ (by omega), getD_append_left _ _ _ _ h]

theorem putU16LE_append_left (l₁ l₂ : List Nat) (pos v : Nat)
    (h : pos + 1 < l₁.length) :
    putU16LE (l₁ ++ l₂) pos v = putU16LE l₁ pos v ++ l₂ := by
  unfold putU16LE
  rw [List.set_append_left _ _ (by omega : pos < l₁.length)]
  rw [List.set_append_left _ _ (by simpa using h)]

/-- The listener's 2048-byte receive buffer after a datagram of `d.length`
bytes has been read into it: the datagram followed by untouched zeros. -/
def listenerBuffer (d : List Nat) : List Nat :=
  d ++ List.replicate (2048 - d.length) 0

/-- The checksum test `udpListener` applies: `checkChecksum(buf, 0x20)` over
the whole 2048-byte buffer. -/
def listenerAccepts (d : List Nat) : Bool :=
  (checkChecksum (listenerBuffer d) 0x20).1

/-- `udpListener`, restricted to successfully read datagrams: each datagram
whose frame checksum at offset 0x20 verifies is copied and pushed onto the
pending-response queue; every other datagram is silently discarded. -/
def udpListener (dgrams : List (List Nat)) : List (List Nat) :=
  dgrams.filter listenerAccepts

/-- `RecvResponse`: pop the next queued frame; `none` models the timeout. -/
def recvResponse (queue : List (List Nat)) : Option (List Nat) :=
  queue.head?

/-- Checking the checksum over the zero-extended receive buffer is the same
as checking it over the datagram itself, once the datagram covers the
checksum field. -/
theorem listenerAccepts_eq_checkChecksum (d : List Nat) (h : 0x22 ≤ d.length) :
    listenerAccepts d = (checkChecksum d 0x20).1 := by
  unfold listenerAccepts listenerBuffer
  show (calcChecksum (putU16LE (d ++ List.replicate (2048 - d.length) 0) 0x20 0) ==
      getU16LE (d ++ List.replicate (2048 - d.length) 0) 0x20) =
    (calcChecksum (putU16LE d 0x20 0) == getU16LE d 0x20)
  rw [putU16LE_append_left _ _ _ _ (by omega), getU16LE_append_left _ _ _ (by omega)]
  rw [show calcChecksum (putU16LE d 0x20 0 ++ List.replicate (2048 - d.length) 0)
      = calcChecksum (putU16LE d 0x20 0) from calcChecksum_append_zeros ..]

/-- C3: for every sequence of received datagrams (each long enough to carry
the checksum field), a datagram enters the pending-response queue iff its
frame checksum at offset 0x20 verifies; hence every queued frame is
checksum-valid and every frame delivered to a waiting caller is
checksum-valid, so a frame with a corrupted checksum byte is never queued
nor delivered. -/
theorem udpListener_only_valid_frames (dgrams : List (List Nat))
    (hlen : ∀ d ∈ dgrams, 0x22 ≤ d.length) :
    (∀ d ∈ dgrams, (d ∈ udpListener dgrams ↔ (checkChecksum d 0x20).1 = true)) ∧
    (∀ f ∈ udpListener dgrams, (checkChecksum f 0x20).1 = true) ∧
    (∀ f, recvResponse (udpListener dgrams) = some f →
      (checkChecksum f 0x20).1 = true) := by
  have hmemtail : ∀ f ∈ udpListener dgrams, (checkChecksum f 0x20).1 = true := by
    intro f hf
    have hm := List.mem_filter.mp hf
    rw [← listenerAccepts_eq_checkChecksum f (hlen f hm.1)]
    exact hm.2
  refine ⟨?_, hmemtail, ?_⟩
  · intro d hd
    constructor
    · intro hin
      exact hmemtail d hin
    · intro hv
      exact List.mem_filter.mpr ⟨hd, by
        rw [listenerAccepts_eq_checkChecksum d (hlen d hd)]; exact hv⟩
  · intro f hf
    exact hmemtail f (List.mem_of_mem_head? hf)

/-- Witness for C3: a queue built from one checksum-valid frame and the same
frame with a corrupted checksum byte. -/
theorem udpListener_only_valid_frames_witness :
    (∀ d ∈ [List.replicate 0x20 0 ++ [0xaf, 0xbe],
            List.replicate 0x20 0 ++ [0xae, 0xbe]],
      (d ∈ udpListener [List.replicate 0x20 0 ++ [0xaf, 0xbe],
                        List.replicate 0x20 0 ++ [0xae, 0xbe]] ↔
        (checkChecksum d 0x20).1 = true)) ∧
    (∀ f ∈ udpListener [List.replicate 0x20 0 ++ [0xaf, 0xbe],
                        List.replicate 0x20 0 ++ [0xae, 0xbe]],
      (checkChecksum f 0x20).1 = true) ∧
    (∀ f, recvResponse (udpListener [List.replicate 0x20 0 ++ [0xaf, 0xbe],
                                     List.replicate 0x20 0 ++ [0xae, 0xbe]])
        = some f → (checkChecksum f 0x20).1 = true) :=
  udpListener_only_valid_frames
    [List.replicate 0x20 0 ++ [0xaf, 0xbe], List.replicate 0x20 0 ++ [0xae, 0xbe]]
    (by decide)

end Broadlinkzard

namespace Broadlinkzard

/-- The mutable fields of `BroadlinkDevice`.  `hwMac` models the `[6]byte`
array; `encIv` is fixed for the object's lifetime. -/
structure DeviceState where
  devID : Nat
  devType : Nat
  hwMac : List Nat
  encKey : List Nat
  encIv : List Nat
  sendCount : Nat
deriving DecidableEq

/-- The fixed default session key baked into `initVars`. -/
def defaultKey : List Nat :=
  [0x09, 0x76, 0x28, 0x34, 0x3f, 0xe9, 0x9e, 0x23,
   0x76, 0x5c, 0x15, 0x13, 0xac, 0xcf, 0x8b, 0x02]

/-- The fixed initialization vector baked into `initVars`. -/
def defaultIv : List Nat :=
  [0x56, 0x2e, 0x17, 0x99, 0x6d, 0x09, 0x3d, 0x28,
   0xdd, 0xb3, 0xba, 0x69, 0x5a, 0x2e, 0x6f, 0x58]

/-- `initVars`: default key and IV, send counter zeroed. -/
def initVars (devType : Nat) (hwMac : List Nat) : DeviceState :=
  { devID := 0, devType := devType, hwMac := hwMac,
    encKey := defaultKey, encIv := defaultIv, sendCount := 0 }

/-- A sample device used for concrete instantiations. -/
def sampleDev : DeviceState := initVars 0x2711 [0x34, 0xea, 0x34, 0x00, 0x00, 0x01]

/-- The 0x38-byte header `RawSendPacket` fills before the payload branch:
magic preamble at 0x00, device type at 0x24, command at 0x26, the already
incremented send counter at 0x28, MAC at 0x2a, device identifier at 0x30. -/
def rawHeader (dev : DeviceState) (command newCount : Nat) : List Nat :=
  let packet0 := copyAt (List.replicate 0x38 0) 0
    [0x5a, 0xa5, 0xaa, 0x55, 0x5a, 0xa5, 0xaa, 0x55, 0x00]
  let packet1 := putU16LE packet0 0x24 dev.devType
  let packet2 := putU16LE packet1 0x26 command
  let packet3 := putU16LE packet2 0x28 newCount
  let packet4 := copyAt packet3 0x2a dev.hwMac
  putU32LE packet4 0x30 dev.devID

/-- `RawSendPacket(command, payload)`: increments the send counter, builds
the 0x38-byte header, appends the encrypted padded payload when one is
present, writes the frame checksum last, and hands the frame to
`WriteToUDP`.  The outcome of the UDP write (`sendErr`, `some ()` meaning
the send failed, e.g. after `Close`) is discarded by the source, which ends
with `return true, nil` unconditionally; the returned quadruple is
(new state, frame, returned bool, returned error). -/
def RawSendPacket (E : List Nat → List Nat) (dev : DeviceState)
    (command : Nat) (payload : List Nat) (sendErr : Option Unit) :
    DeviceState × List Nat × Bool × Option Unit :=
  let _ := sendErr
  let dev' := { dev with sendCount := (dev.sendCount + 1) % 65536 }
  let packet5 := rawHeader dev command dev'.sendCount
  let packet6 :=
    if payload = [] then packet5
    else
      let padded := padding payload 16
      putU16LE packet5 0x34 (calcChecksum padded) ++ encrypt E dev.encIv padded
  let packet7 := putU16LE packet6 0x20 (calcChecksum packet6)
  (dev', packet7, true, none)

/-- `SendPacket`: sends via `RawSendPacket` (whose error is always `nil`),
then performs an unconditional wait on the pending-response queue. -/
def SendPacket (E : List Nat → List Nat) (dev : DeviceState)
    (command : Nat) (payload : List Nat) (sendErr : Option Unit)
    (queue : List (List Nat)) : DeviceState × Option (List Nat) :=
  let r := RawSendPacket E dev command payload sendErr
  (r.1, recvResponse queue)

/-- `wait4Response(expectedType, timeout)`: returns the first queued frame
whose response-type tag at offset 0x26 equals `expectedType`; `none` models
the timeout (the Go loop pushes non-matching frames back to the tail, which
does not change which frame matches first). -/
def wait4Response (expectedType : Nat) (queue : List (List Nat)) :
    Option (List Nat) :=
  queue.find? (fun buf => getU16LE buf 0x26 == expectedType)

/-- The 0x50-byte auth request payload: flag byte at 0x2d, host name copied
in at 0x30. -/
def authPayload (hostname : List Nat) : List Nat :=
  copyAt ((List.replicate 0x50 0).set 0x2d 1) 0x30 hostname

/-- `Auth()`: sends the request (incrementing the counter) and waits for a
0x3e9 reply.  On wait failure it returns `(false, err)`.  On a reply of at
least 0x38 bytes it decrypts the payload with the current key and
overwrites `DevID` (little-endian bytes 0..3) and `encKey` (bytes
0x04..0x13) in place, returning `(true, nil)`.  The decrypt error is
discarded by the source, so a failed decrypt (payload shorter than one
block or not block-aligned) dereferences a nil slice, and a decrypted
payload shorter than 0x14 bytes makes the key slice out of range: both Go
panics are modelled as `none`.  Result: (state, returned bool, returned
error). -/
def Auth (E D : List Nat → List Nat) (hostname : List Nat)
    (dev : DeviceState) (queue : List (List Nat)) :
    Option (DeviceState × Bool × Option Unit) :=
  let r := RawSendPacket E dev 0x65 (authPayload hostname) none
  let dev1 := r.1
  match wait4Response 0x3e9 queue with
  | none => some (dev1, false, some ())
  | some resp =>
    if 0x38 ≤ resp.length then
      match decrypt D dev1.encIv (resp.drop 0x38) with
      | none => none
      | some decrypted =>
        if 0x14 ≤ decrypted.length then
          some ({ dev1 with
                    devID := getU32LE decrypted 0x00,
                    encKey := (decrypted.drop 0x04).take 0x10 }, true, none)
        else none
    else some (dev1, true, none)

/-- The payload built by `SetPowerMask(smask, onstate)` (MP1 family): the
control byte at offset 6 is the mask shifted left once (as a `uint8`) when
turning on, biased by 0xb2; byte 13 is the mask, byte 14 the enabled
sub-mask (zeroed when turning off). -/
def setPowerMaskPayload (smask : Nat) (onstate : Bool) : List Nat :=
  let shifted := smask * 2 % 256
  let vb2₀ := if onstate then shifted else smask
  let vb2 := (vb2₀ + 0xb2) % 256
  let v0e := if onstate then smask else 0
  copyAt (List.replicate 16 0) 0
    [0x0d, 0x00, 0xa5, 0xa5, 0x5a, 0x5a, vb2, 0xc0,
     0x02, 0x00, 0x03, 0x00, 0x00, smask, v0e]

/-- The payload built by `SetPowerMulti(no, onstate)`: delegates to
`SetPowerMask` with the single-bit mask `0x01 << (no - 1)`.  For the
1-based contract `no ≥ 1`, the Go `uint8` shift equals `2 ^ (no - 1) % 256`
(a shift past the register width and the remainder both give 0). -/
def setPowerMultiPayload (no : Nat) (onstate : Bool) : List Nat :=
  setPowerMaskPayload (2 ^ (no - 1) % 256) onstate

/-- The response interpretation of the SP2 `QueryPower()`: surface a nonzero
error code at 0x22, decrypt the payload with the current key, and report
"on" iff the status byte at offset 4 of the decrypted payload is one of the
accepted on-codes.  Go panics (response too short for the indexed reads)
are modelled as `none`, like surfaced errors. -/
def queryPowerResp (D : List Nat → List Nat) (iv : List Nat)
    (resp : List Nat) : Option Bool :=
  if resp.length < 0x24 then none
  else if getU16LE resp 0x22 ≠ 0 then none
  else if resp.length < 0x38 then none
  else
    match decrypt D iv (resp.drop 0x38) with
    | none => none
    | some dpayload =>
      if 5 ≤ dpayload.length then
        some (dpayload.getD 4 0 == 1 || dpayload.getD 4 0 == 3 ||
          dpayload.getD 4 0 == 0xfd)
      else none

/-- The response interpretation of the MP1 `QueryPowerRaw()`: surface a
nonzero error code at 0x22, decrypt, and return the raw relay-status byte
at offset 0x0e of the decrypted payload. -/
def queryPowerRawResp (D : List Nat → List Nat) (iv : List Nat)
    (resp : List Nat) : Option Nat :=
  if resp.length < 0x24 then none
  else if getU16LE resp 0x22 ≠ 0 then none
  else if resp.length < 0x38 then none
  else
    match decrypt D iv (resp.drop 0x38) with
    | none => none
    | some dpayload =>
      if 0x0f ≤ dpayload.length then some (dpayload.getD 0x0e 0)
      else none

end Broadlinkzard

namespace Broadlinkzard

/-- C7: the control byte at offset 6 of the `SetPowerMask(m, on)` payload is
`(m << 1) + 0xb2` mod 256 when turning on and `m + 0xb2` mod 256 when
turning off; in particular `(0x05 << 1) + 0xb2` for mask 5 on and
`0x05 + 0xb2` for mask 5 off. -/
theorem setPowerMask_control_byte (m : Nat) (onstate : Bool) (hm : m < 256) :
    ((setPowerMaskPayload m onstate).getD 6 0 =
      if onstate then (m * 2 + 0xb2) % 256 else (m + 0xb2) % 256) ∧
    (setPowerMaskPayload 0x05 true).getD 6 0 = 0x05 * 2 + 0xb2 ∧
    (setPowerMaskPayload 0x05 false).getD 6 0 = 0x05 + 0xb2 := by
  refine ⟨?_, by decide, by decide⟩
  have hpl : setPowerMaskPayload m onstate =
      [0x0d, 0x00, 0xa5, 0xa5, 0x5a, 0x5a,
       ((if onstate then m * 2 % 256 else m) + 0xb2) % 256, 0xc0,
       0x02, 0x00, 0x03, 0x00, 0x00, m, if onstate then m else 0, 0] := rfl
  rw [hpl]
  show ((if onstate then m * 2 % 256 else m) + 0xb2) % 256 = _
  cases onstate with
  | false => simp
  | true => simp only [if_true]; omega

/-- Witness for C7 at mask 5. -/
theorem setPowerMask_control_byte_witness :
    ((setPowerMaskPayload 5 true).getD 6 0 =
      if true then (5 * 2 + 0xb2) % 256 else (5 + 0xb2) % 256) ∧
    (setPowerMaskPayload 0x05 true).getD 6 0 = 0x05 * 2 + 0xb2 ∧
    (setPowerMaskPayload 0x05 false).getD 6 0 = 0x05 + 0xb2 :=
  setPowerMask_control_byte 5 true (by omega)

/-- C8: `SetPowerMulti(no, on)` delegates to `SetPowerMask` with the
single-bit mask `1 << (no - 1)`; index 1 yields the identical payload to
mask 0x01, and index 3 yields a mask byte (offset 13) of 0x04. -/
theorem setPowerMulti_delegates_to_mask :
    (∀ no onstate, setPowerMultiPayload no onstate =
      setPowerMaskPayload (2 ^ (no - 1) % 256) onstate) ∧
    setPowerMultiPayload 1 true = setPowerMaskPayload 0x01 true ∧
    (setPowerMultiPayload 3 true).getD 13 0 = 0x04 :=
  ⟨fun _ _ => rfl, by decide, by decide⟩

/-- Corrected C6, counterexample: with a failing UDP send (`some ()`, the
post-`Close` situation), `RawSendPacket` still reports `(true, nil)` —
the transport error is not returned to the caller. -/
theorem rawSendPacket_success_despite_send_failure_cex :
    (RawSendPacket id sampleDev 0x6a [0x02] (some ())).2.2 = (true, none) := rfl

/-- Corrected C6: `RawSendPacket` discards the outcome of the UDP write and
returns `(true, nil)` for every send outcome, so a transport error is never
surfaced; `SendPacket`'s only error source is the response wait (timeout on
an empty queue), independent of the send outcome. -/
theorem rawSendPacket_ignores_send_errors (E : List Nat → List Nat)
    (dev : DeviceState) (command : Nat) (payload : List Nat)
    (sendErr : Option Unit) (queue : List (List Nat)) :
    (RawSendPacket E dev command payload sendErr).2.2 = (true, none) ∧
    (SendPacket E dev command payload sendErr queue).2 = recvResponse queue :=
  ⟨rfl, rfl⟩

/-- Shared helper: the success path of `Auth` in full. -/
theorem auth_success_eq (E D : List Nat → List Nat) (hostname : List Nat)
    (dev : DeviceState) (queue : List (List Nat)) (resp dp : List Nat)
    (hwait : wait4Response 0x3e9 queue = some resp)
    (hlen : 0x38 ≤ resp.length)
    (hdec : decrypt D dev.encIv (resp.drop 0x38) = some dp)
    (hdp : 0x14 ≤ dp.length) :
    Auth E D hostname dev queue =
      some ({ dev with
                sendCount := (dev.sendCount + 1) % 65536,
                devID := getU32LE dp 0x00,
                encKey := (dp.drop 0x04).take 0x10 }, true, none) := by
  unfold Auth
  rw [hwait]
  simp only []
  rw [if_pos hlen]
  have hdec' : decrypt D
      (RawSendPacket E dev 0x65 (authPayload hostname) none).1.encIv
      (resp.drop 0x38) = some dp := hdec
  rw [hdec']
  simp only []
  rw [if_pos hdp]
  rfl

/-- C4: when the 0x3e9 reply arrives, is at least 0x38 bytes long, and its
payload decrypts under the current key to at least 0x14 bytes, `Auth`
returns success after setting the device identifier to the little-endian
32-bit value at bytes 0..3 of the decrypted payload and replacing the
session key with its bytes 4..0x13 (16 bytes) in the device state used by
all subsequent encryption. -/
theorem auth_success_sets_id_and_key (E D : List Nat → List Nat)
    (hostname : List Nat) (dev : DeviceState) (queue : List (List Nat))
    (resp dp : List Nat)
    (hwait : wait4Response 0x3e9 queue = some resp)
    (hlen : 0x38 ≤ resp.length)
    (hdec : decrypt D dev.encIv (resp.drop 0x38) = some dp)
    (hdp : 0x14 ≤ dp.length) :
    getU16LE resp 0x26 = 0x3e9 ∧
    Auth E D hostname dev queue =
      some ({ dev with
                sendCount := (dev.sendCount + 1) % 65536,
                devID := getU32LE dp 0x00,
                encKey := (dp.drop 0x04).take 0x10 }, true, none) ∧
    ((dp.drop 0x04).take 0x10).length = 0x10 := by
  refine ⟨?_, auth_success_eq E D hostname dev queue resp dp hwait hlen hdec hdp, ?_⟩
  · have hp := List.find?_some hwait
    simpa using hp
  · simp only [List.length_take, List.length_drop]
    omega

/-- Witness for C4: a crafted 0x3e9 reply whose 32-byte all-zero ciphertext
decrypts (identity cipher) to the IV followed by zeros. -/
theorem auth_success_sets_id_and_key_witness :
    getU16LE (putU16LE (List.replicate 0x38 0) 0x26 0x3e9 ++ List.replicate 32 0)
      0x26 = 0x3e9 ∧
    Auth id id [] sampleDev
        [putU16LE (List.replicate 0x38 0) 0x26 0x3e9 ++ List.replicate 32 0] =
      some ({ sampleDev with
                sendCount := (sampleDev.sendCount + 1) % 65536,
                devID := getU32LE (defaultIv ++ List.replicate 16 0) 0x00,
                encKey := ((defaultIv ++ List.replicate 16 0).drop 0x04).take 0x10 },
        true, none) ∧
    (((defaultIv ++ List.replicate 16 0).drop 0x04).take 0x10).length = 0x10 :=
  auth_success_sets_id_and_key id id [] sampleDev
    [putU16LE (List.replicate 0x38 0) 0x26 0x3e9 ++ List.replicate 32 0]
    (putU16LE (List.replicate 0x38 0) 0x26 0x3e9 ++ List.replicate 32 0)
    (defaultIv ++ List.replicate 16 0)
    (by decide) (by decide) (by decide) (by decide)

/-- Corrected C5, counterexample: two concrete failures of the claim.  On a
timed-out wait, `Auth` returns the error but the device state is not the
pre-call state — the send sequence counter has been incremented by the
request send.  On a malformed response — a 0x3e9 reply of 0x28 bytes,
shorter than the 0x38-byte header — `Auth` surfaces no error at all,
returning `(true, nil)` (and the counter is incremented here too). -/
theorem auth_failure_mutates_send_counter_cex :
    (Auth id id [] sampleDev [] =
        some ({ sampleDev with sendCount := 1 }, false, some ()) ∧
      ({ sampleDev with sendCount := 1 } : DeviceState) ≠ sampleDev) ∧
    Auth id id [] sampleDev [putU16LE (List.replicate 0x28 0) 0x26 0x3e9] =
      some ({ sampleDev with sendCount := 1 }, true, none) :=
  ⟨⟨rfl, by decide⟩, rfl⟩

/-- Corrected C5: `Auth` neither preserves the whole device state on failure
nor surfaces every failure.  On wait failure (timeout) it returns the
underlying error and leaves the device identifier and session key
unchanged, but the send sequence counter has been incremented once
(mod 2^16) by the request send.  On a malformed response — a 0x3e9 reply
shorter than 0x38 bytes — it skips the update block and returns
`(true, nil)`, surfacing no error, again with identifier and key unchanged
and the counter incremented. -/
theorem auth_failure_keeps_id_and_key (E D : List Nat → List Nat)
    (hostname : List Nat) (dev : DeviceState) (queue : List (List Nat)) :
    (wait4Response 0x3e9 queue = none →
      Auth E D hostname dev queue =
        some ({ dev with sendCount := (dev.sendCount + 1) % 65536 },
          false, some ())) ∧
    (∀ resp, wait4Response 0x3e9 queue = some resp → resp.length < 0x38 →
      Auth E D hostname dev queue =
        some ({ dev with sendCount := (dev.sendCount + 1) % 65536 },
          true, none)) := by
  constructor
  · intro hwait
    unfold Auth
    rw [hwait]
    rfl
  · intro resp hwait hshort
    unfold Auth
    rw [hwait]
    simp only []
    rw [if_neg (by omega)]
    rfl

/-- Witness for corrected C5: the timeout conjunct on an empty queue, the
malformed-response conjunct on a queue holding a 0x28-byte 0x3e9 reply. -/
theorem auth_failure_keeps_id_and_key_witness :
    Auth id id [] sampleDev [] =
      some ({ sampleDev with sendCount := (sampleDev.sendCount + 1) % 65536 },
        false, some ()) ∧
    Auth id id [] sampleDev [putU16LE (List.replicate 0x28 0) 0x26 0x3e9] =
      some ({ sampleDev with sendCount := (sampleDev.sendCount + 1) % 65536 },
        true, none) :=
  ⟨(auth_failure_keeps_id_and_key id id [] sampleDev []).1 rfl,
   (auth_failure_keeps_id_and_key id id [] sampleDev
       [putU16LE (List.replicate 0x28 0) 0x26 0x3e9]).2
     (putU16LE (List.replicate 0x28 0) 0x26 0x3e9) (by decide) (by decide)⟩

end Broadlinkzard

namespace Broadlinkzard

theorem copyAt_length (dst : List Nat) (pos : Nat) (src : List Nat) :
    (copyAt dst pos src).length = dst.length := by
  simp only [copyAt, List.length_append, List.length_take, List.length_drop]
  omega

theorem putU16LE_length (buf : List Nat) (pos v : Nat) :
    (putU16LE buf pos v).length = buf.length := by
  simp [putU16LE]

theorem putU32LE_length (buf : List Nat) (pos v : Nat) :
    (putU32LE buf pos v).length = buf.length := by
  simp [putU32LE]

theorem rawHeader_length (dev : DeviceState) (command newCount : Nat) :
    (rawHeader dev command newCount).length = 0x38 := by
  simp [rawHeader, putU32LE_length, putU16LE_length, copyAt_length]

theorem drop_set_of_lt (l : List Nat) (i n a : Nat) (h : i < n) :
    (l.set i a).drop n = l.drop n := by
  induction l generalizing i n with
  | nil => simp
  | cons x t ih =>
    cases n with
    | zero => omega
    | succ m =>
      cases i with
      | zero => rfl
      | succ j => exact ih j m (by omega)

theorem drop_putU16LE (l : List Nat) (pos v n : Nat) (h : pos + 1 < n) :
    (putU16LE l pos v).drop n = l.drop n := by
  unfold putU16LE
  rw [drop_set_of_lt _ _ _ _ (by omega : pos + 1 < n),
    drop_set_of_lt _ _ _ _ (by omega : pos < n)]

theorem getU16LE_putU16LE (buf : List Nat) (pos v : Nat)
    (h : pos + 1 < buf.length) (hv : v < 65536) :
    getU16LE (putU16LE buf pos v) pos = v := by
  unfold getU16LE putU16LE
  rw [getD_set_ne _ _ _ _ _ (by omega : pos + 1 ≠ pos)]
  rw [getD_set_self _ _ _ _ (by omega : pos < buf.length)]
  rw [getD_set_self _ _ _ _ (by
    rw [List.length_set]; omega : pos + 1 < (buf.set pos (v % 256)).length)]
  omega

theorem getU16LE_putU16LE_ne (buf : List Nat) (pos v pos' : Nat)
    (h1 : pos ≠ pos') (h2 : pos ≠ pos' + 1)
    (h3 : pos + 1 ≠ pos') (h4 : pos + 1 ≠ pos' + 1) :
    getU16LE (putU16LE buf pos v) pos' = getU16LE buf pos' := by
  unfold getU16LE putU16LE
  rw [getD_set_ne _ _ _ _ _ h3, getD_set_ne _ _ _ _ _ h1,
    getD_set_ne _ _ _ _ _ h4, getD_set_ne _ _ _ _ _ h2]

theorem padding_of_aligned (l : List Nat) (h : l.length % 16 = 0) :
    padding l 16 = l ++ List.replicate 16 0 := by
  unfold padding
  rw [h]

theorem rawSendPacket_packet_eq (E : List Nat → List Nat) (dev : DeviceState)
    (command : Nat) (payload : List Nat) (sendErr : Option Unit)
    (hne : payload ≠ []) :
    (RawSendPacket E dev command payload sendErr).2.1 =
      putU16LE
        (putU16LE (rawHeader dev command ((dev.sendCount + 1) % 65536)) 0x34
            (calcChecksum (padding payload 16)) ++
          encrypt E dev.encIv (padding payload 16))
        0x20
        (calcChecksum
          (putU16LE (rawHeader dev command ((dev.sendCount + 1) % 65536)) 0x34
              (calcChecksum (padding payload 16)) ++
            encrypt E dev.encIv (padding payload 16))) := by
  simp only [RawSendPacket, if_neg hne]

/-- C9: for every non-empty payload, `RawSendPacket` writes the checksum at
0x34 over the padded payload `padding payload 16`, but encrypts that padded
payload again through `encrypt` (which re-pads the already block-aligned
input with a full zero block), so the encrypted payload appended after the
0x38-byte header is exactly one block longer than the checksummed
plaintext and decrypts to `padding payload 16` followed by 16 zero bytes. -/
theorem rawSendPacket_pads_twice (E D : List Nat → List Nat)
    (dev : DeviceState) (command : Nat) (payload : List Nat)
    (sendErr : Option Unit)
    (hne : payload ≠ [])
    (hED : ∀ x, x.length = 16 → D (E x) = x)
    (hE : ∀ x, x.length = 16 → (E x).length = 16)
    (hiv : dev.encIv.length = 16) :
    getU16LE (RawSendPacket E dev command payload sendErr).2.1 0x34 =
      calcChecksum (padding payload 16) ∧
    (RawSendPacket E dev command payload sendErr).2.1.drop 0x38 =
      encrypt E dev.encIv (padding payload 16) ∧
    ((RawSendPacket E dev command payload sendErr).2.1.drop 0x38).length =
      (padding payload 16).length + 16 ∧
    decrypt D dev.encIv
        ((RawSendPacket E dev command payload sendErr).2.1.drop 0x38) =
      some (padding payload 16 ++ List.replicate 16 0) := by
  have hpkt := rawSendPacket_packet_eq E dev command payload sendErr hne
  have hmod : (padding payload 16).length % 16 = 0 := by
    obtain ⟨c, hc⟩ := padding_length_dvd payload
    omega
  have hhdrlen :
      (putU16LE (rawHeader dev command ((dev.sendCount + 1) % 65536)) 0x34
        (calcChecksum (padding payload 16))).length = 0x38 := by
    rw [putU16LE_length, rawHeader_length]
  have hdrop : (RawSendPacket E dev command payload sendErr).2.1.drop 0x38 =
      encrypt E dev.encIv (padding payload 16) := by
    rw [hpkt, drop_putU16LE _ _ _ _ (by omega)]
    rw [show (0x38 : Nat) =
      (putU16LE (rawHeader dev command ((dev.sendCount + 1) % 65536)) 0x34
        (calcChecksum (padding payload 16))).length from hhdrlen.symm]
    exact List.drop_left ..
  refine ⟨?_, hdrop, ?_, ?_⟩
  · rw [hpkt]
    rw [getU16LE_putU16LE_ne _ _ _ _ (by omega) (by omega) (by omega) (by omega)]
    rw [getU16LE_append_left _ _ _ (by rw [hhdrlen]; omega)]
    rw [getU16LE_putU16LE _ _ _ (by rw [rawHeader_length]; omega)
      (calcChecksum_lt _)]
  · rw [hdrop, encrypt_length E hE dev.encIv hiv (padding payload 16)]
    rw [padding_of_aligned _ hmod]
    simp
  · rw [hdrop, decrypt_encrypt_eq E D dev.encIv (padding payload 16) hED hE hiv]
    rw [padding_of_aligned _ hmod]

/-- Witness for C9 with the identity block cipher and payload `[0x02]`. -/
theorem rawSendPacket_pads_twice_witness :
    getU16LE (RawSendPacket id sampleDev 0x6a [0x02] none).2.1 0x34 =
      calcChecksum (padding [0x02] 16) ∧
    (RawSendPacket id sampleDev 0x6a [0x02] none).2.1.drop 0x38 =
      encrypt id sampleDev.encIv (padding [0x02] 16) ∧
    ((RawSendPacket id sampleDev 0x6a [0x02] none).2.1.drop 0x38).length =
      (padding [0x02] 16).length + 16 ∧
    decrypt id sampleDev.encIv
        ((RawSendPacket id sampleDev 0x6a [0x02] none).2.1.drop 0x38) =
      some (padding [0x02] 16 ++ List.replicate 16 0) :=
  rawSendPacket_pads_twice id id sampleDev 0x6a [0x02] none
    (by decide) (fun x _ => rfl) (fun x hx => hx) (by decide)

end Broadlinkzard

namespace Broadlinkzard

theorem cbcDecBlocks_length_16 (D : List Nat → List Nat)
    (hD : ∀ x, x.length = 16 → (D x).length = 16)
    (prev : List Nat) (hprev : prev.length = 16)
    (cs : List (List Nat)) (hcs : ∀ c ∈ cs, c.length = 16) :
    ∀ p ∈ cbcDecBlocks D prev cs, p.length = 16 := by
  induction cs generalizing prev with
  | nil => simp [cbcDecBlocks]
  | cons c cs ih =>
    intro p hp
    have hc : c.length = 16 := hcs c (by simp)
    rcases List.mem_cons.mp hp with rfl | htail
    · rw [blockXor_length, hD c hc, hprev]; simp
    · exact ih c hc (fun x hx => hcs x (List.mem_cons_of_mem c hx)) p htail

theorem cbcDecBlocks_count (D : List Nat → List Nat) (prev : List Nat)
    (cs : List (List Nat)) : (cbcDecBlocks D prev cs).length = cs.length := by
  induction cs generalizing prev with
  | nil => rfl
  | cons c cs ih => simp [cbcDecBlocks, ih]

/-- `decrypt` never strips anything: whenever it succeeds it returns exactly
as many bytes as the ciphertext had. -/
theorem decrypt_length (D : List Nat → List Nat)
    (hD : ∀ x, x.length = 16 → (D x).length = 16)
    (iv : List Nat) (hiv : iv.length = 16)
    (ct pt : List Nat) (h : decrypt D iv ct = some pt) :
    pt.length = ct.length := by
  unfold decrypt at h
  by_cases h1 : ct.length < 16
  · rw [if_pos h1] at h; exact absurd h (by simp)
  rw [if_neg h1] at h
  by_cases h2 : ct.length % 16 ≠ 0
  · rw [if_pos h2] at h; exact absurd h (by simp)
  rw [if_neg h2] at h
  have hdvd : 16 ∣ ct.length := Nat.dvd_of_mod_eq_zero (not_ne_iff.mp h2)
  have hpt : pt = (cbcDecBlocks D iv (toBlocks ct)).flatten :=
    (Option.some.inj h).symm
  rw [hpt,
    flatten_length_16 _ (cbcDecBlocks_length_16 D hD iv hiv _
      (toBlocks_length_16 ct hdvd)),
    cbcDecBlocks_count]
  have h16 := flatten_length_16 (toBlocks ct) (toBlocks_length_16 ct hdvd)
  rw [flatten_toBlocks] at h16
  omega

/-- C10: padding is never stripped on the receive path — `decrypt` returns
exactly `len(ciphertext)` bytes, `QueryPowerRaw` returns the byte at offset
0x0e of the unstripped decrypted payload, `QueryPower` tests the byte at
offset 4 of the unstripped decrypted payload, and `Auth` takes the new
identifier and session key directly from the unstripped decrypted payload
(the length-stripping `unPadding` routine plays no part in any of them). -/
theorem receive_path_never_strips_padding :
    (∀ (D : List Nat → List Nat) (iv ct pt : List Nat),
      (∀ x, x.length = 16 → (D x).length = 16) → iv.length = 16 →
      decrypt D iv ct = some pt → pt.length = ct.length) ∧
    (∀ (D : List Nat → List Nat) (iv resp pt : List Nat) (v : Nat),
      (∀ x, x.length = 16 → (D x).length = 16) → iv.length = 16 →
      decrypt D iv (resp.drop 0x38) = some pt →
      queryPowerRawResp D iv resp = some v →
      v = pt.getD 0x0e 0 ∧ pt.length = (resp.drop 0x38).length) ∧
    (∀ (D : List Nat → List Nat) (iv resp pt : List Nat) (b : Bool),
      (∀ x, x.length = 16 → (D x).length = 16) → iv.length = 16 →
      decrypt D iv (resp.drop 0x38) = some pt →
      queryPowerResp D iv resp = some b →
      b = (pt.getD 4 0 == 1 || pt.getD 4 0 == 3 || pt.getD 4 0 == 0xfd) ∧
        pt.length = (resp.drop 0x38).length) ∧
    (∀ (E D : List Nat → List Nat) (hostname : List Nat) (dev : DeviceState)
      (queue : List (List Nat)) (resp pt : List Nat),
      wait4Response 0x3e9 queue = some resp → 0x38 ≤ resp.length →
      decrypt D dev.encIv (resp.drop 0x38) = some pt → 0x14 ≤ pt.length →
      Auth E D hostname dev queue =
        some ({ dev with
                  sendCount := (dev.sendCount + 1) % 65536,
                  devID := getU32LE pt 0x00,
                  encKey := (pt.drop 0x04).take 0x10 }, true, none)) := by
  refine ⟨fun D iv ct pt hD hiv h => decrypt_length D hD iv hiv ct pt h, ?_, ?_, ?_⟩
  · intro D iv resp pt v hD hiv hdec hq
    unfold queryPowerRawResp at hq
    by_cases g1 : resp.length < 0x24
    · rw [if_pos g1] at hq; exact absurd hq (by simp)
    rw [if_neg g1] at hq
    by_cases g2 : getU16LE resp 0x22 ≠ 0
    · rw [if_pos g2] at hq; exact absurd hq (by simp)
    rw [if_neg g2] at hq
    by_cases g3 : resp.length < 0x38
    · rw [if_pos g3] at hq; exact absurd hq (by simp)
    rw [if_neg g3] at hq
    rw [hdec] at hq
    simp only [] at hq
    by_cases g4 : 0x0f ≤ pt.length
    · rw [if_pos g4] at hq
      exact ⟨(Option.some.inj hq).symm, decrypt_length D hD iv hiv _ _ hdec⟩
    · rw [if_neg g4] at hq; exact absurd hq (by simp)
  · intro D iv resp pt b hD hiv hdec hq
    unfold queryPowerResp at hq
    by_cases g1 : resp.length < 0x24
    · rw [if_pos g1] at hq; exact absurd hq (by simp)
    rw [if_neg g1] at hq
    by_cases g2 : getU16LE resp 0x22 ≠ 0
    · rw [if_pos g2] at hq; exact absurd hq (by simp)
    rw [if_neg g2] at hq
    by_cases g3 : resp.length < 0x38
    · rw [if_pos g3] at hq; exact absurd hq (by simp)
    rw [if_neg g3] at hq
    rw [hdec] at hq
    simp only [] at hq
    by_cases g4 : 5 ≤ pt.length
    · rw [if_pos g4] at hq
      exact ⟨(Option.some.inj hq).symm, decrypt_length D hD iv hiv _ _ hdec⟩
    · rw [if_neg g4] at hq; exact absurd hq (by simp)
  · intro E D hostname dev queue resp pt hwait hlen hdec hdp
    exact auth_success_eq E D hostname dev queue resp pt hwait hlen hdec hdp

/-- Witness for C10: a concrete 0x3e9 reply with a 32-byte all-zero
ciphertext under the identity cipher, exercising all four conjuncts. -/
theorem receive_path_never_strips_padding_witness :
    (defaultIv ++ List.replicate 16 0).length = (List.replicate 32 0).length ∧
    ((0x6f : Nat) = (defaultIv ++ List.replicate 16 0).getD 0x0e 0 ∧
      (defaultIv ++ List.replicate 16 0).length =
        ((putU16LE (List.replicate 0x38 0) 0x26 0x3e9 ++
          List.replicate 32 0).drop 0x38).length) ∧
    ((false = ((defaultIv ++ List.replicate 16 0).getD 4 0 == 1 ||
        (defaultIv ++ List.replicate 16 0).getD 4 0 == 3 ||
        (defaultIv ++ List.replicate 16 0).getD 4 0 == 0xfd)) ∧
      (defaultIv ++ List.replicate 16 0).length =
        ((putU16LE (List.replicate 0x38 0) 0x26 0x3e9 ++
          List.replicate 32 0).drop 0x38).length) ∧
    Auth id id [0x68] sampleDev
        [putU16LE (List.replicate 0x38 0) 0x26 0x3e9 ++ List.replicate 32 0] =
      some ({ sampleDev with
                sendCount := (sampleDev.sendCount + 1) % 65536,
                devID := getU32LE (defaultIv ++ List.replicate 16 0) 0x00,
                encKey := ((defaultIv ++ List.replicate 16 0).drop 0x04).take 0x10 },
        true, none) :=
  ⟨receive_path_never_strips_padding.1 id defaultIv (List.replicate 32 0)
      (defaultIv ++ List.replicate 16 0) (fun x hx => hx) (by decide) (by decide),
   receive_path_never_strips_padding.2.1 id defaultIv
      (putU16LE (List.replicate 0x38 0) 0x26 0x3e9 ++ List.replicate 32 0)
      (defaultIv ++ List.replicate 16 0) 0x6f
      (fun x hx => hx) (by decide) (by decide) (by decide),
   receive_path_never_strips_padding.2.2.1 id defaultIv
      (putU16LE (List.replicate 0x38 0) 0x26 0x3e9 ++ List.replicate 32 0)
      (defaultIv ++ List.replicate 16 0) false
      (fun x hx => hx) (by decide) (by decide) (by decide),
   receive_path_never_strips_padding.2.2.2 id id [0x68] sampleDev
      [putU16LE (List.replicate 0x38 0) 0x26 0x3e9 ++ List.replicate 32 0]
      (putU16LE (List.replicate 0x38 0) 0x26 0x3e9 ++ List.replicate 32 0)
      (defaultIv ++ List.replicate 16 0)
      (by decide) (by decide) (by decide) (by decide)⟩

end Broadlinkzard
